import Mathlib

/-!
# Verification of the probe-and-classify engine (`app.py`)

Shallow embedding of the pure/algorithmic core of the reconnaissance
aggregator: phone-number variant generation, response decoding, verdict
classification, the username fan-out, the phone-lookup loop, and the
caller-name extractors.  Network I/O is modelled by explicit response
assignments (`Option` = a request that raised), and the `asyncio.gather`
fan-in is modelled by an explicit completion-order parameter.
-/

namespace Rail

/-! ## Python string primitives -/

/-- Python's `\d` (for this app's inputs): ASCII digits plus the
Arabic-Indic and Extended Arabic-Indic decimal digits.  (Python's `re`
matches the full Unicode `Nd` category; the app is Saudi-phone focused,
so these are the ranges that can actually reach `_digits`.) -/
def isDigitPy (c : Char) : Bool :=
  c.isDigit || ('٠' ≤ c && c ≤ '٩') || ('۰' ≤ c && c ≤ '۹')

/-- Python whitespace as used by `str.strip` / `re \s` on this app's data:
space, tab, LF, CR, vertical tab, form feed. -/
def isPyWhite (c : Char) : Bool :=
  c == ' ' || c == '\t' || c == '\n' || c == '\r' || c == '\x0b' || c == '\x0c'

/-- Tests that `p` occurs at the head of `l` (list version of `str.startswith`). -/
def leadsWith : List Char → List Char → Bool
  | [], _ => true
  | _ :: _, [] => false
  | a :: as, b :: bs => a == b && leadsWith as bs

/-- Tests that `needle` occurs somewhere inside `hay` (Python's `needle in hay`). -/
def subIn (needle : List Char) : List Char → Bool
  | [] => leadsWith needle []
  | c :: t => leadsWith needle (c :: t) || subIn needle t

/-- String façade for `subIn`: `strContains hay needle` is Python's
`needle in hay`. -/
def strContains (hay needle : String) : Bool :=
  subIn needle.toList hay.toList

/-- Python `str.strip()`. -/
def pyStrip (s : String) : String :=
  String.mk (((s.toList.dropWhile isPyWhite).reverse.dropWhile isPyWhite).reverse)

/-- Python `str.lower()` (ASCII case mapping; the phrases being scanned
for are ASCII, and Arabic has no case). -/
def pyLower (s : String) : String :=
  String.mk (s.toList.map Char.toLower)

/-- Python `r.text.lower()[:2000]`: lower-case, then keep the first 2000
characters. -/
def capLower2000 (s : String) : String :=
  String.mk ((s.toList.map Char.toLower).take 2000)

/-! ## Phone canonicalizer (`build_sa_variants`, app.py lines 37-60) -/

/-- Python `d = d[2:] if d.startswith("00") else d` (app.py line 39-40). -/
def strip00 (d : List Char) : List Char :=
  if leadsWith ['0', '0'] d then d.drop 2 else d

/-- The `variants` list built by app.py lines 41-54, before the
dedup/length pass: the `966`-prefixed branch or the bare-core branch. -/
def rawVariants (d : List Char) : List (List Char) :=
  if leadsWith ['9', '6', '6'] d then
    let rest := d.drop 3
    (if rest = [] then []
     else
       [rest.dropWhile (· == '0')] ++
         (if rest.head? == some '0' then [] else [['0'] ++ rest])) ++
      [['9', '6', '6'] ++ rest]
  else
    let core := d.dropWhile (· == '0')
    if core = [] then [] else [core, '0' :: core, '9' :: '6' :: '6' :: core]

/-- The dedup-while-filtering pass of app.py lines 56-59:
`if v and 8 <= len(v) <= 12 and v not in seen`. -/
def dedupLen (seen : List (List Char)) : List (List Char) → List (List Char)
  | [] => []
  | v :: rest =>
    if v ≠ [] ∧ 8 ≤ v.length ∧ v.length ≤ 12 ∧ v ∉ seen then
      v :: dedupLen (v :: seen) rest
    else dedupLen seen rest

/-- The core of `build_sa_variants` on the digit list. -/
def buildVariantsL (dRaw : List Char) : List (List Char) :=
  dedupLen [] (rawVariants (strip00 dRaw))

/-- Python `build_sa_variants(text)` (app.py lines 37-60): keep only the digits
(`_digits`), normalize a leading `00`, generate the Saudi variants and
dedup/length-filter them. -/
def build_sa_variants (text : String) : List String :=
  (buildVariantsL (text.toList.filter isDigitPy)).map String.mk

/-! ### Lemmas about the dedup/length pass -/

/-! ### Lemmas about the generated variants -/

/-! ## Response decoder (`_best_decode`, app.py lines 13-27)

The raw response carries an optional server-declared encoding (`none` or
`some ""` model httpx's falsy values) and the raw payload.  `Codecs`
abstracts Python's codec registry: `isKnown e` is whether codec name `e`
is registered (`bytes.decode(e, ...)` raises `LookupError` otherwise),
and `decodeReplace e raw` is the total `raw.decode(e, errors="replace")`
for a registered codec, which never raises.  The one fact `_best_decode`
relies on — that `"utf-8"` is always registered — is taken as a
hypothesis of the theorems. -/

structure RawResp where
  encoding : Option String
  content : List Nat
  text : String

structure Codecs where
  isKnown : String → Bool
  decodeReplace : String → List Nat → String

/-- The `enc_order` list of app.py lines 16-19: declared encoding first when truthy,
then the fixed fallback chain. -/
def encOrder (declared : Option String) : List String :=
  (match declared with
   | some e => if e ≠ "" then [e] else []
   | none => []) ++ ["utf-8", "cp1256", "windows-1256", "iso-8859-6"]

/-- The `for enc in enc_order: try ... except: continue` loop of app.py
lines 21-26. -/
def decodeLoop (cs : Codecs) (raw : List Nat) : List String → Option (String × String)
  | [] => none
  | e :: rest =>
    if cs.isKnown e then some (cs.decodeReplace e raw, e) else decodeLoop cs raw rest

/-- Python `_best_decode(resp)` (app.py lines 13-27): first successful decode in
`encOrder`, with the (unreachable when utf-8 is registered) fallback of
line 27. -/
def best_decode (cs : Codecs) (r : RawResp) : String × String :=
  match decodeLoop cs r.content (encOrder r.encoding) with
  | some p => p
  | none =>
    (r.text,
      match r.encoding with
      | some e => if e = "" then "unknown" else e
      | none => "unknown")

/-! ## Verdict classifier: generic fallback branches (app.py lines 69-72,
178-181, 290-303)

An HTTP response is a status code and an optional body text (`none` models
`r.text` raising, which both branches turn into `""`).  A whole probe
outcome is `Option HttpResp`, `none` modelling the request itself raising
a network exception. -/

structure HttpResp where
  status : Nat
  body : Option String

/-- The `NEGATIVE_HINTS` list (app.py lines 69-72), used by the username probe. -/
def NEGATIVE_HINTS : List String :=
  ["not found", "doesn't exist", "page not found", "404",
   "sorry, this page isn't available", "user not found", "couldn’t find",
   "couldn't find", "no such user", "profile is unavailable"]

/-- The negative-phrase list of the email generic branch (app.py line 180). -/
def EMAIL_NEG : List String :=
  ["invalid email", "no account", "not found", "does not exist", "unknown email"]

/-- The generic email heuristic of app.py lines 178-181: lower-cased,
2000-char-capped body scanned for `EMAIL_NEG`; status < 400 and no phrase
match gives the likely-linked verdict string, else the unconfirmed one. -/
def email_generic_verdict (status : Nat) (body : Option String) : String :=
  let text_l := capLower2000 (body.getD "")
  let negative := EMAIL_NEG.any (fun h => strContains text_l h)
  if decide (status < 400) && !negative then "✅ مستلم/محتمل مرتبط" else "❌ غير مؤكد/مرفوض"

/-- Python `_probe(client, url)` (app.py lines 290-303): a raised request gives
`(url, False)`; otherwise ok iff status < 400 and none of
`NEGATIVE_HINTS` occurs in the lower-cased 2000-char-capped body. -/
def probeOutcome (url : String) (resp : Option HttpResp) : String × Bool :=
  match resp with
  | none => (url, false)
  | some r =>
    let text := capLower2000 (r.body.getD "")
    let ok := decide (r.status < 400) && !(NEGATIVE_HINTS.any (fun h => strContains text h))
    (url, ok)

/-! ## Username fan-out (`username_check`, app.py lines 266-288)

`asyncio.gather` runs one `_probe` task per site and returns the results
positionally, whatever order the responses arrive in.  We model the
fan-in explicitly: tasks complete in an arbitrary `order` (a permutation
of the task indices) and each completed task writes its result into its
own slot; the read-out is the slot list.  The theorems show the read-out
equals the positional map, independent of `order`. -/

/-- Python `normalize_username` (app.py lines 77-80). -/
def normalize_username (s : String) : String :=
  let t := pyStrip s
  if t.toList.head? == some '@' then String.mk (t.toList.drop 1) else t

/-- Python `pat.format(username)`: substitute the template's single `{}` slot
(the site-list contract gives each template exactly one slot). -/
def replaceSlot : List Char → List Char → List Char
  | [], _ => []
  | '\x7b' :: '\x7d' :: rest, arg => arg ++ rest
  | c :: rest, arg => c :: replaceSlot rest arg

def formatSlot (pat arg : String) : String :=
  String.mk (replaceSlot pat.toList arg.toList)

/-- The result the `_probe` task for slot `i` computes. -/
def taskResult (urls : List String) (net : String → Option HttpResp) (i : Nat) :
    String × Bool :=
  probeOutcome (urls.getD i "") (net (urls.getD i ""))

/-- Fan-out/fan-in: tasks complete in arrival order `order`, each filling
its own slot; read out the slots positionally (`asyncio.gather`). -/
def username_fanout (urls : List String) (net : String → Option HttpResp)
    (order : List Nat) : List (String × Bool) :=
  ((order.foldl (fun s i => s.set i (some (taskResult urls net i)))
      (List.replicate urls.length none)).map (fun o => o.getD ("", false)))

/-- Python `found = [u for u, ok in results if ok]` (app.py line 278). -/
def foundOf (results : List (String × Bool)) : List String :=
  (results.filter (fun p => p.2)).map (fun p => p.1)

/-- Python `missing = [u for u, ok in results if not ok]` (app.py line 279). -/
def missingOf (results : List (String × Bool)) : List String :=
  (results.filter (fun p => !p.2)).map (fun p => p.1)

/-- Concrete 5-site response assignment for the C2 witness: three clean
200s, one 404 with a negative hint, one raising probe. -/
def demoNet : String → Option HttpResp := fun u =>
  if u = "https://a.example/u" then some ⟨200, some "welcome"⟩
  else if u = "https://b.example/u" then some ⟨404, some "page not found"⟩
  else if u = "https://c.example/u" then some ⟨200, some "ok page"⟩
  else if u = "https://d.example/u" then none
  else some ⟨200, some "fine"⟩

/-! ## JSON values and the caller-name extractors (app.py lines 197-207,
228-245)

`JVal` models a parsed `r.json()` body; objects are association lists
with the (unique) keys in insertion order, as `json.loads` produces. -/

inductive JVal where
  | str : String → JVal
  | num : Int → JVal
  | bool : Bool → JVal
  | null : JVal
  | arr : List JVal → JVal
  | obj : List (String × JVal) → JVal

/-- Python `isinstance(j.get(k), str) and j[k].strip()` — the stripped value when
the key holds a string with non-empty strip, else nothing. -/
def stripLookup (m : List (String × JVal)) (k : String) : Option String :=
  match m.lookup k with
  | some (JVal.str s) => if pyStrip s = "" then none else some (pyStrip s)
  | _ => none

/-- Keys scanned at the top level (app.py line 232). -/
def TOP_KEYS : List String := ["name", "Name", "callerName", "caller_name", "caller"]

/-- Keys scanned one level into nested objects (app.py line 238) — note
"caller" is absent here. -/
def NESTED_KEYS : List String := ["name", "Name", "callerName", "caller_name"]

/-- Python `j.values()` in insertion order. -/
def jvalsOf (m : List (String × JVal)) : List JVal := m.map (fun p => p.2)

/-- The top-level key loop with its `break` (app.py lines 232-234), as a
fold carrying the mutable `name_val`. -/
def topScan (m : List (String × JVal)) : Option String :=
  TOP_KEYS.foldl
    (fun acc k => match acc with | some v => some v | none => stripLookup m k) none

/-- The inner nested-key loop (app.py lines 238-240). -/
def nestedScanInner (m2 : List (String × JVal)) : Option String :=
  NESTED_KEYS.foldl
    (fun acc k => match acc with | some v => some v | none => stripLookup m2 k) none

/-- The outer loop over `j.values()` with its `if name_val: break`
(app.py lines 236-241). -/
def nestedScan (m : List (String × JVal)) : Option String :=
  (jvalsOf m).foldl
    (fun acc vv =>
      match acc with
      | some v => some v
      | none =>
        match vv with
        | JVal.obj m2 => nestedScanInner m2
        | _ => none)
    none

/-- The JSON branch of the name extraction (app.py lines 230-241): only
object bodies are searched; top-level keys first, then one level into
nested object values. -/
def extract_name_json : JVal → Option String
  | JVal.obj m =>
    (match topScan m with
     | some v => some v
     | none => nestedScan m)
  | _ => none

/-! ### Text extraction (`extract_name_from_text`, app.py lines 197-207)

Each of the three regexes is implemented as a position-wise matcher with
`re.search`'s leftmost-match scan.  The only construct needing
backtracking is the trailing `\s*([class]{3,60})` (whitespace given back
to the capture), implemented in `wsCapture`. -/

/-- Case-insensitive literal match at the head; returns the remainder.
(`re.I`; ASCII case-folding suffices for the literals involved, and
Arabic has no case.) -/
def ciMatch : List Char → List Char → Option (List Char)
  | [], l => some l
  | _ :: _, [] => none
  | p :: ps, c :: cs => if c.toLower == p.toLower then ciMatch ps cs else none

/-- Greedy `\s*(cls{3,60})` at the end of a pattern: the engine consumes
`k` whitespace characters (largest first) and captures the maximal `cls`
run after them, needing at least 3 and keeping at most 60 characters. -/
def wsCaptureAux (cls : Char → Bool) (t : List Char) : Nat → Option (List Char)
  | 0 =>
    let run := t.takeWhile cls
    if 3 ≤ run.length then some (run.take 60) else none
  | k + 1 =>
    let run := (t.drop (k + 1)).takeWhile cls
    if 3 ≤ run.length then some (run.take 60) else wsCaptureAux cls t k

def wsCapture (cls : Char → Bool) (t : List Char) : Option (List Char) :=
  wsCaptureAux cls t ((t.takeWhile isPyWhite).length)

/-- The Arabic label literal of the second and third regex. -/
def arabicLabel : List Char := "الاسم".toList

/-- Regex 1 at one position: `"name"\s*:\s*"([^"]+)"` (app.py line 199). -/
def matchP1At (l : List Char) : Option String :=
  match ciMatch ('"' :: 'n' :: 'a' :: 'm' :: 'e' :: '"' :: []) l with
  | none => none
  | some l1 =>
    match l1.dropWhile isPyWhite with
    | ':' :: l3 =>
      (match l3.dropWhile isPyWhite with
       | '"' :: l5 =>
         let grp := l5.takeWhile (fun c => c != '"')
         if grp ≠ [] ∧ l5.dropWhile (fun c => c != '"') ≠ [] then
           some (String.mk grp)
         else none
       | _ => none)
    | _ => none

/-- Regex 2 at one position: `(?:الاسم|name)\s*[:\-]\s*([^\n\r<]{3,60})`
(app.py line 202). -/
def matchP2At (l : List Char) : Option String :=
  match
    (match ciMatch arabicLabel l with
     | some r => some r
     | none => ciMatch ('n' :: 'a' :: 'm' :: 'e' :: []) l) with
  | none => none
  | some l1 =>
    match l1.dropWhile isPyWhite with
    | c :: l2 =>
      if c == ':' || c == '-' then
        (match wsCapture (fun ch => ch != '\n' && ch != '\r' && ch != '<') l2 with
         | some grp => some (String.mk grp)
         | none => none)
      else none
    | [] => none

/-- Regex 3 at one position:
`>(الاسم|name)\s*</td>\s*<td>\s*([^<]{3,60})` (app.py line 205). -/
def matchP3At (l : List Char) : Option String :=
  match l with
  | '>' :: l0 =>
    (match
      (match ciMatch arabicLabel l0 with
       | some r => some r
       | none => ciMatch ('n' :: 'a' :: 'm' :: 'e' :: []) l0) with
    | none => none
    | some l1 =>
      match ciMatch ('<' :: '/' :: 't' :: 'd' :: '>' :: []) (l1.dropWhile isPyWhite) with
      | none => none
      | some l3 =>
        match ciMatch ('<' :: 't' :: 'd' :: '>' :: []) (l3.dropWhile isPyWhite) with
        | none => none
        | some l5 =>
          match wsCapture (fun ch => ch != '<') l5 with
          | some grp => some (String.mk grp)
          | none => none)
  | _ => none

/-- Python `re.search`: try the matcher at each position, leftmost hit wins. -/
def searchScan (m : List Char → Option String) : List Char → Option String
  | [] => m []
  | c :: t =>
    match m (c :: t) with
    | some r => some r
    | none => searchScan m t

/-- Python `extract_name_from_text(txt)` (app.py lines 197-207): the three
strategies in order, each hit stripped. -/
def extract_name_from_text (txt : String) : Option String :=
  match searchScan matchP1At txt.toList with
  | some r => some (pyStrip r)
  | none =>
    match searchScan matchP2At txt.toList with
    | some r => some (pyStrip r)
    | none =>
      match searchScan matchP3At txt.toList with
      | some r => some (pyStrip r)
      | none => none

/-- app.py lines 228-245: JSON extraction first (when the body parsed as
JSON), else the text strategies on the decoded text. -/
def extract_name_pipeline (jsonVal : Option JVal) (txt : String) : Option String :=
  match (match jsonVal with | some j => extract_name_json j | none => none) with
  | some v => some v
  | none => extract_name_from_text txt

/-! ## Phone check (`phone_check`, app.py lines 208-254) -/

def hexVal (c : Char) : Option Nat :=
  if '0' ≤ c ∧ c ≤ '9' then some (c.toNat - '0'.toNat)
  else if 'a' ≤ c ∧ c ≤ 'f' then some (c.toNat - 'a'.toNat + 10)
  else if 'A' ≤ c ∧ c ≤ 'F' then some (c.toNat - 'A'.toNat + 10)
  else none

/-- The body of a JSON string literal, as `json.loads(f'"{name_val}"')`
parses it (strict mode): a raw quote or control character fails, escape
sequences are decoded, `\uXXXX` surrogate pairs are combined.  (Python
would keep a lone surrogate; that is not a representable `Char`, so it is
modelled as a failure — no claim depends on it.) -/
def jsonStringBody : List Char → Option (List Char)
  | [] => some []
  | '"' :: _ => none
  | '\\' :: '"' :: rest => (jsonStringBody rest).map (fun l => '"' :: l)
  | '\\' :: '\\' :: rest => (jsonStringBody rest).map (fun l => '\\' :: l)
  | '\\' :: '/' :: rest => (jsonStringBody rest).map (fun l => '/' :: l)
  | '\\' :: 'b' :: rest => (jsonStringBody rest).map (fun l => '\x08' :: l)
  | '\\' :: 'f' :: rest => (jsonStringBody rest).map (fun l => '\x0c' :: l)
  | '\\' :: 'n' :: rest => (jsonStringBody rest).map (fun l => '\n' :: l)
  | '\\' :: 'r' :: rest => (jsonStringBody rest).map (fun l => '\r' :: l)
  | '\\' :: 't' :: rest => (jsonStringBody rest).map (fun l => '\t' :: l)
  | '\\' :: 'u' :: a :: b :: c :: d :: rest =>
    (match hexVal a, hexVal b, hexVal c, hexVal d with
     | some x1, some x2, some x3, some x4 =>
       let v := ((x1 * 16 + x2) * 16 + x3) * 16 + x4
       if 0xD800 ≤ v ∧ v ≤ 0xDBFF then
         match rest with
         | '\\' :: 'u' :: e :: f :: g :: h :: rest2 =>
           (match hexVal e, hexVal f, hexVal g, hexVal h with
            | some y1, some y2, some y3, some y4 =>
              let w := ((y1 * 16 + y2) * 16 + y3) * 16 + y4
              if 0xDC00 ≤ w ∧ w ≤ 0xDFFF then
                (jsonStringBody rest2).map
                  (fun l => Char.ofNat (0x10000 + (v - 0xD800) * 0x400 + (w - 0xDC00)) :: l)
              else none
            | _, _, _, _ => none)
         | _ => none
       else if 0xDC00 ≤ v ∧ v ≤ 0xDFFF then none
       else (jsonStringBody rest).map (fun l => Char.ofNat v :: l)
     | _, _, _, _ => none)
  | '\\' :: _ => none
  | c :: rest =>
    if c.toNat < 32 then none else (jsonStringBody rest).map (fun l => c :: l)

/-- app.py lines 248-252: when the extracted name contains a literal
`\u`, re-parse it as a JSON string; a parse failure keeps the original. -/
def postProcessName (s : String) : String :=
  if strContains s "\\u" then
    match jsonStringBody s.toList with
    | some l => String.mk l
    | none => s
  else s

/-- A phone-endpoint response: the raw payload for `_best_decode` plus
the parsed JSON body when `r.json()` succeeds. -/
structure PhoneHttpResp where
  rawResp : RawResp
  jsonVal : Option JVal

/-- The name one variant's response yields (app.py lines 226-247): JSON
extraction, else text extraction on the decoded body, with the final
`if name_val:` truthiness test. -/
def variantName (cs : Codecs) (r : PhoneHttpResp) : Option String :=
  match extract_name_pipeline r.jsonVal (best_decode cs r.rawResp).1 with
  | some v => if v = "" then none else some v
  | none => none

/-- The `for v in variants:` loop of app.py lines 220-253, instrumented
with the list of variants actually requested: a raised request (`none`)
is skipped, the first variant yielding a name stops the loop and returns
that (post-processed) name, later variants are not requested. -/
def phone_loop (cs : Codecs) (net : String → Option PhoneHttpResp) :
    List String → List String × List String
  | [] => ([], [])
  | v :: rest =>
    match net v with
    | none =>
      let r := phone_loop cs net rest
      (v :: r.1, r.2)
    | some resp =>
      match variantName cs resp with
      | some name => ([v], [postProcessName name])
      | none =>
        let r := phone_loop cs net rest
        (v :: r.1, r.2)

/-- Python `phone_check(raw)` instrumented: `(requested variants, result lines)`. -/
def phone_check_run (cs : Codecs) (raw : String)
    (net : String → Option PhoneHttpResp) : List String × List String :=
  phone_loop cs net (build_sa_variants raw)

/-- The value `phone_check(raw)` returns (app.py lines 208-254). -/
def phone_check (cs : Codecs) (raw : String)
    (net : String → Option PhoneHttpResp) : List String :=
  (phone_check_run cs raw net).2

/-- The name a single variant yields, seen from outside: `none` when the
request raises or no name is extracted. -/
def tryVariant (cs : Codecs) (net : String → Option PhoneHttpResp)
    (v : String) : Option String :=
  match net v with
  | none => none
  | some r => variantName cs r

/-- Index and value of the first variant yielding a name. -/
def firstHit (f : String → Option String) : List String → Option (Nat × String)
  | [] => none
  | v :: rest =>
    match f v with
    | some n => some (0, n)
    | none => (firstHit f rest).map (fun p => (p.1 + 1, p.2))

/-- Concrete codec registry for the phone witnesses. -/
def demoCodecs : Codecs := ⟨fun e => e == "utf-8", fun _ _ => ""⟩

/-- Concrete variant responses for the C4 witness: the first variant's
request raises, the second yields a JSON name, the third would never be
reached. -/
def demoPhoneNet : String → Option PhoneHttpResp := fun v =>
  if v = "501234567" then none
  else if v = "0501234567" then
    some ⟨⟨none, [], ""⟩, some (JVal.obj [("name", JVal.str "Ali")])⟩
  else some ⟨⟨none, [], ""⟩, none⟩

/-! ## Theorems -/

theorem dedupLen_sublist (l : List (List Char)) :
    ∀ seen, List.Sublist (dedupLen seen l) l := by
  induction l with
  | nil => intro seen; simp [dedupLen]
  | cons v rest ih =>
    intro seen
    by_cases h : v ≠ [] ∧ 8 ≤ v.length ∧ v.length ≤ 12 ∧ v ∉ seen
    · rw [dedupLen, if_pos h]
      exact List.Sublist.cons₂ v (ih (v :: seen))
    · rw [dedupLen, if_neg h]
      exact List.Sublist.cons v (ih seen)

theorem dedupLen_mem {v : List Char} : ∀ {l seen}, v ∈ dedupLen seen l →
    v ≠ [] ∧ 8 ≤ v.length ∧ v.length ≤ 12 ∧ v ∉ seen := by
  intro l
  induction l with
  | nil => intro seen h; simp [dedupLen] at h
  | cons w rest ih =>
    intro seen h
    by_cases hc : w ≠ [] ∧ 8 ≤ w.length ∧ w.length ≤ 12 ∧ w ∉ seen
    · rw [dedupLen, if_pos hc] at h
      rcases List.mem_cons.mp h with h1 | h2
      · subst h1; exact hc
      · have h3 := ih h2
        exact ⟨h3.1, h3.2.1, h3.2.2.1, fun hm => h3.2.2.2 (List.mem_cons_of_mem _ hm)⟩
    · rw [dedupLen, if_neg hc] at h
      exact ih h

theorem dedupLen_nodup (l : List (List Char)) : ∀ seen, (dedupLen seen l).Nodup := by
  induction l with
  | nil => intro seen; simp [dedupLen]
  | cons v rest ih =>
    intro seen
    by_cases h : v ≠ [] ∧ 8 ≤ v.length ∧ v.length ≤ 12 ∧ v ∉ seen
    · rw [dedupLen, if_pos h]
      refine List.nodup_cons.mpr ⟨fun hmem => ?_, ih (v :: seen)⟩
      exact (dedupLen_mem hmem).2.2.2 (List.mem_cons_self v seen)
    · rw [dedupLen, if_neg h]
      exact ih seen

theorem rawVariants_length_le (d : List Char) : (rawVariants d).length ≤ 3 := by
  unfold rawVariants
  dsimp only
  split
  · split
    · simp
    · split <;> simp
  · split <;> simp

theorem mem_dropWhile_mem {p : Char → Bool} {c : Char} :
    ∀ {l : List Char}, c ∈ l.dropWhile p → c ∈ l := by
  intro l
  induction l with
  | nil => simp [List.dropWhile]
  | cons a t ih =>
    intro h
    rw [List.dropWhile_cons] at h
    by_cases hp : p a = true
    · rw [if_pos hp] at h
      exact List.mem_cons_of_mem _ (ih h)
    · rw [if_neg hp] at h
      exact h

theorem rawVariants_forms {d v : List Char} (hv : v ∈ rawVariants d) :
    v = (d.drop 3).dropWhile (· == '0') ∨ v = ['0'] ++ d.drop 3 ∨
      v = ['9', '6', '6'] ++ d.drop 3 ∨ v = d.dropWhile (· == '0') ∨
      v = '0' :: d.dropWhile (· == '0') ∨
      v = '9' :: '6' :: '6' :: d.dropWhile (· == '0') := by
  unfold rawVariants at hv
  dsimp only at hv
  split at hv
  · rcases List.mem_append.mp hv with h | h
    · split at h
      · exact absurd h (List.not_mem_nil v)
      · rcases List.mem_append.mp h with h' | h'
        · rw [List.mem_singleton] at h'
          exact Or.inl h'
        · split at h'
          · exact absurd h' (List.not_mem_nil v)
          · rw [List.mem_singleton] at h'
            exact Or.inr (Or.inl h')
    · rw [List.mem_singleton] at h
      exact Or.inr (Or.inr (Or.inl h))
  · split at hv
    · exact absurd hv (List.not_mem_nil v)
    · simp only [List.mem_cons, List.not_mem_nil, or_false] at hv
      rcases hv with h | h | h
      · exact Or.inr (Or.inr (Or.inr (Or.inl h)))
      · exact Or.inr (Or.inr (Or.inr (Or.inr (Or.inl h))))
      · exact Or.inr (Or.inr (Or.inr (Or.inr (Or.inr h))))

theorem rawVariants_digits {d : List Char} (hd : ∀ c ∈ d, isDigitPy c = true) :
    ∀ v ∈ rawVariants d, ∀ c ∈ v, isDigitPy c = true := by
  have hdrop : ∀ c ∈ d.drop 3, isDigitPy c = true :=
    fun c hc => hd c (List.mem_of_mem_drop hc)
  have hdw : ∀ c ∈ (d.drop 3).dropWhile (· == '0'), isDigitPy c = true :=
    fun c hc => hdrop c (mem_dropWhile_mem hc)
  have hcore : ∀ c ∈ d.dropWhile (· == '0'), isDigitPy c = true :=
    fun c hc => hd c (mem_dropWhile_mem hc)
  intro v hv c hc
  rcases rawVariants_forms hv with h | h | h | h | h | h <;> subst h
  · exact hdw c hc
  · rcases List.mem_append.mp hc with h' | h'
    · rw [List.mem_singleton] at h'; subst h'; decide
    · exact hdrop c h'
  · rcases List.mem_append.mp hc with h' | h'
    · rcases h' with _ | ⟨_, h''⟩
      · decide
      · rcases h'' with _ | ⟨_, h3⟩
        · decide
        · rcases h3 with _ | ⟨_, h4⟩
          · decide
          · exact absurd h4 (List.not_mem_nil c)
    · exact hdrop c h'
  · exact hcore c hc
  · rcases List.mem_cons.mp hc with h' | h'
    · subst h'; decide
    · exact hcore c h'
  · rcases List.mem_cons.mp hc with h' | h'
    · subst h'; decide
    · rcases List.mem_cons.mp h' with h'' | h''
      · subst h''; decide
      · rcases List.mem_cons.mp h'' with h3 | h3
        · subst h3; decide
        · exact hcore c h3

theorem strip00_subset {d : List Char} {c : Char} (h : c ∈ strip00 d) : c ∈ d := by
  unfold strip00 at h
  split at h
  · exact List.mem_of_mem_drop h
  · exact h

theorem string_mk_injective : Function.Injective String.mk := by
  intro a b h
  simpa using congrArg String.data h

theorem append00_vs_plus_aux (l : List Char) (hdig : ∀ c ∈ l, isDigitPy c = true)
    (h00 : leadsWith ['0', '0'] l = false) :
    build_sa_variants (String.mk ('0' :: '0' :: l)) = build_sa_variants (String.mk ('+' :: l)) := by
  have hl : l.filter isDigitPy = l := List.filter_eq_self.mpr hdig
  unfold build_sa_variants
  have h1 : (String.mk ('0' :: '0' :: l)).toList = '0' :: '0' :: l := rfl
  have h2 : (String.mk ('+' :: l)).toList = '+' :: l := rfl
  rw [h1, h2]
  have h3 : ('0' :: '0' :: l).filter isDigitPy = '0' :: '0' :: l := by
    rw [List.filter_cons_of_pos (by decide), List.filter_cons_of_pos (by decide), hl]
  have h4 : ('+' :: l).filter isDigitPy = l := by
    rw [List.filter_cons_of_neg (by decide), hl]
  rw [h3, h4]
  have h5 : strip00 ('0' :: '0' :: l) = l := by
    simp [strip00, leadsWith]
  have h6 : strip00 l = l := by
    unfold strip00
    rw [h00]
    simp
  rw [buildVariantsL, buildVariantsL, h5, h6]

/-- C5: `build_sa_variants "+966501234567"` returns exactly the ordered list
`["501234567", "0501234567", "966501234567"]`, and `build_sa_variants
"0501234567"` (no explicit country code) returns exactly the same ordered
list. -/
theorem build_sa_variants_examples :
    build_sa_variants "+966501234567" = ["501234567", "0501234567", "966501234567"] ∧
      build_sa_variants "0501234567" = ["501234567", "0501234567", "966501234567"] := by
  decide

/-- C6 counterexample: the claim "for every string s of digits,
`build_sa_variants ("00" ++ s) = build_sa_variants ("+" ++ s)`" fails at the
digit string s = "00966501234567": the code strips only one `00` pair, so on
the `00`-side the `966` country code is no longer at the head and the
variant lists differ. -/
theorem variants_00_plus_mismatch :
    ("00966501234567" : String).toList.all isDigitPy = true ∧
      build_sa_variants ("00" ++ "00966501234567") = ["966501234567"] ∧
      build_sa_variants ("+" ++ "00966501234567") =
        ["501234567", "0501234567", "966501234567"] ∧
      build_sa_variants ("00" ++ "00966501234567") ≠
        build_sa_variants ("+" ++ "00966501234567") := by
  decide

/-- C6 (amended): for every digit string s that does NOT itself start with
"00", `build_sa_variants ("00" ++ s) = build_sa_variants ("+" ++ s)`; in
particular `build_sa_variants "00966501234567" = build_sa_variants
"+966501234567"`. -/
theorem variants_00_plus_agree :
    (∀ s : String, s.toList.all isDigitPy = true →
        leadsWith ['0', '0'] s.toList = false →
        build_sa_variants ("00" ++ s) = build_sa_variants ("+" ++ s)) ∧
      build_sa_variants "00966501234567" = build_sa_variants "+966501234567" := by
  constructor
  · intro s hdig h00
    obtain ⟨l⟩ := s
    have hd : ∀ c ∈ l, isDigitPy c = true := by
      simpa [List.all_eq_true] using hdig
    have h00' : leadsWith ['0', '0'] l = false := h00
    have e1 : ("00" ++ String.mk l) = String.mk ('0' :: '0' :: l) := rfl
    have e2 : ("+" ++ String.mk l) = String.mk ('+' :: l) := rfl
    rw [e1, e2]
    exact append00_vs_plus_aux l hd h00'
  · decide

/-- C6 witness: the amended equation instantiated at the digit string
"501234567". -/
theorem variants_00_plus_agree_witness :
    build_sa_variants ("00" ++ "501234567") = build_sa_variants ("+" ++ "501234567") :=
  variants_00_plus_agree.1 "501234567" (by decide) (by decide)

/-- C7: every output of `build_sa_variants` has at most three elements, no
duplicates, only non-empty digit strings of length within [8, 12], and the
output preserves the first-seen generation order (it is a sublist of the
generated local-without-zero / local-with-zero / country-code sequence). -/
theorem build_sa_variants_invariants (text : String) :
    (build_sa_variants text).length ≤ 3 ∧
      (build_sa_variants text).Nodup ∧
      (∀ v ∈ build_sa_variants text, v ≠ "" ∧ 8 ≤ v.length ∧ v.length ≤ 12 ∧
          v.toList.all isDigitPy = true) ∧
      List.Sublist (build_sa_variants text)
        ((rawVariants (strip00 (text.toList.filter isDigitPy))).map String.mk) := by
  have hsub : List.Sublist (buildVariantsL (text.toList.filter isDigitPy))
      (rawVariants (strip00 (text.toList.filter isDigitPy))) :=
    dedupLen_sublist _ []
  have hdig : ∀ c ∈ strip00 (text.toList.filter isDigitPy), isDigitPy c = true := by
    intro c hc
    exact (List.mem_filter.mp (strip00_subset hc)).2
  refine ⟨?_, ?_, ?_, ?_⟩
  · have h1 : (build_sa_variants text).length =
        (buildVariantsL (text.toList.filter isDigitPy)).length := by
      simp [build_sa_variants]
    rw [h1]
    exact le_trans hsub.length_le (rawVariants_length_le _)
  · exact List.Nodup.map string_mk_injective (dedupLen_nodup _ [])
  · intro v hv
    obtain ⟨u, hu, rfl⟩ := List.mem_map.mp hv
    have h := dedupLen_mem hu
    have hm : u ∈ rawVariants (strip00 (text.toList.filter isDigitPy)) := hsub.subset hu
    refine ⟨?_, h.2.1, h.2.2.1, ?_⟩
    · intro hempty
      exact h.1 (string_mk_injective (show String.mk u = String.mk [] from hempty))
    · exact List.all_eq_true.mpr (fun c hc => rawVariants_digits hdig u hm c hc)
  · exact hsub.map String.mk

/-- C7 witness: the member-wise invariants at the concrete variant
"501234567" produced from "+966501234567". -/
theorem build_sa_variants_invariants_witness :
    ("501234567" : String) ≠ "" ∧ 8 ≤ ("501234567" : String).length ∧
      ("501234567" : String).length ≤ 12 ∧
      ("501234567" : String).toList.all isDigitPy = true :=
  (build_sa_variants_invariants "+966501234567").2.2.1 "501234567" (by decide)

theorem decodeLoop_eq_find (cs : Codecs) (raw : List Nat) :
    ∀ l : List String,
      decodeLoop cs raw l = (l.find? cs.isKnown).map (fun e => (cs.decodeReplace e raw, e)) := by
  intro l
  induction l with
  | nil => simp [decodeLoop]
  | cons e rest ih =>
    by_cases h : cs.isKnown e = true
    · rw [decodeLoop, if_pos h, List.find?_cons_of_pos _ h]
      simp
    · rw [decodeLoop, if_neg h, List.find?_cons_of_neg _ h, ih]

theorem find_encOrder_isSome (cs : Codecs) (declared : Option String)
    (h : cs.isKnown "utf-8" = true) :
    ((encOrder declared).find? cs.isKnown).isSome := by
  have hmem : "utf-8" ∈ encOrder declared := by
    unfold encOrder
    exact List.mem_append_right _ (by simp)
  rcases List.find?_isSome.mpr ⟨"utf-8", hmem, h⟩ with hs
  exact hs

/-- C8: `_best_decode` never raises and returns the text/encoding pair of
the first successful decode attempt, in the fixed order: declared encoding
(when present and truthy), then utf-8, cp1256, windows-1256, iso-8859-6,
each attempted with replacement-on-error semantics. -/
theorem best_decode_first_success (cs : Codecs) (r : RawResp)
    (h : cs.isKnown "utf-8" = true) :
    ∃ e, (encOrder r.encoding).find? cs.isKnown = some e ∧
      best_decode cs r = (cs.decodeReplace e r.content, e) := by
  obtain ⟨e, he⟩ := Option.isSome_iff_exists.mp (find_encOrder_isSome cs r.encoding h)
  refine ⟨e, he, ?_⟩
  unfold best_decode
  rw [decodeLoop_eq_find, he]
  rfl

/-- C8 witness: a registry knowing only utf-8 and ascii, a response
declaring the unregistered "latin-9000": the first success is utf-8. -/
theorem best_decode_first_success_witness :
    best_decode ⟨fun e => e == "utf-8" || e == "ascii", fun _ _ => "ok"⟩
        ⟨some "latin-9000", [72, 105], "hi"⟩ = ("ok", "utf-8") := by
  obtain ⟨e, he, hb⟩ := best_decode_first_success
    ⟨fun e => e == "utf-8" || e == "ascii", fun _ _ => "ok"⟩
    ⟨some "latin-9000", [72, 105], "hi"⟩ (by decide)
  have he2 : e = "utf-8" := by
    have hfind : (encOrder (some "latin-9000")).find?
        (Codecs.isKnown ⟨fun e => e == "utf-8" || e == "ascii", fun _ _ => "ok"⟩) =
        some "utf-8" := by decide
    rw [hfind] at he
    exact (Option.some_inj.mp he).symm
  subst he2
  exact hb

/-- C10: the encoding `_best_decode` actually uses is the declared encoding
whenever that names a registered codec, and "utf-8" in every other case;
the cp1256 / windows-1256 / iso-8859-6 fallback entries are never reached. -/
theorem best_decode_encoding_used (cs : Codecs) (r : RawResp)
    (h : cs.isKnown "utf-8" = true) :
    (∀ e, r.encoding = some e → e ≠ "" → cs.isKnown e = true →
        best_decode cs r = (cs.decodeReplace e r.content, e)) ∧
      ((r.encoding = none ∨ r.encoding = some "" ∨
          (∃ e, r.encoding = some e ∧ cs.isKnown e = false)) →
        best_decode cs r = (cs.decodeReplace "utf-8" r.content, "utf-8")) ∧
      ((best_decode cs r).2 = "utf-8" ∨ r.encoding = some (best_decode cs r).2) := by
  have hloop : ∀ raw, decodeLoop cs raw ["utf-8", "cp1256", "windows-1256", "iso-8859-6"] =
      some (cs.decodeReplace "utf-8" raw, "utf-8") := by
    intro raw
    rw [decodeLoop, if_pos h]
  refine ⟨?_, ?_, ?_⟩
  · intro e he hne hk
    unfold best_decode encOrder
    rw [he]
    dsimp only
    rw [if_pos hne]
    rw [List.singleton_append, decodeLoop, if_pos hk]
  · intro hcase
    unfold best_decode encOrder
    rcases hcase with he | he | ⟨e, he, hk⟩
    · rw [he]
      dsimp only
      simp only [List.nil_append]
      rw [hloop]
    · rw [he]
      dsimp only
      simp only [ne_eq, not_true_eq_false, if_false, List.nil_append]
      rw [hloop]
    · rw [he]
      dsimp only
      by_cases hne : e = ""
      · subst hne
        simp only [ne_eq, not_true_eq_false, if_false, List.nil_append]
        rw [hloop]
      · rw [if_pos hne, List.singleton_append, decodeLoop, if_neg (by simp [hk]), hloop]
  · rcases hre : r.encoding with _ | e
    · left
      unfold best_decode encOrder
      rw [hre]
      dsimp only
      simp only [List.nil_append]
      rw [hloop]
    · by_cases hne : e = ""
      · left
        unfold best_decode encOrder
        rw [hre, hne]
        dsimp only
        simp only [ne_eq, not_true_eq_false, if_false, List.nil_append]
        rw [hloop]
      · by_cases hk : cs.isKnown e = true
        · right
          unfold best_decode encOrder
          rw [hre]
          dsimp only
          rw [if_pos hne, List.singleton_append, decodeLoop, if_pos hk]
        · left
          unfold best_decode encOrder
          rw [hre]
          dsimp only
          rw [if_pos hne, List.singleton_append, decodeLoop,
            if_neg (by simp [hk]), hloop]

/-- C10 witness: with a declared, registered "ascii" encoding the declared
codec is the one used. -/
theorem best_decode_encoding_used_witness :
    best_decode ⟨fun e => e == "utf-8" || e == "ascii", fun e _ => e⟩
        ⟨some "ascii", [65], "A"⟩ = ("ascii", "ascii") :=
  (best_decode_encoding_used ⟨fun e => e == "utf-8" || e == "ascii", fun e _ => e⟩
      ⟨some "ascii", [65], "A"⟩ (by decide)).1 "ascii" rfl (by decide) (by decide)

/-- The generic-branch Bool condition unpacked: status below 400 and no
phrase of the list occurring in the scanned text. -/
theorem generic_cond_iff (status : Nat) (L : List String) (t : String) :
    (decide (status < 400) && !(L.any (fun h => strContains t h))) = true ↔
      (status < 400 ∧ L.all (fun h => !strContains t h) = true) := by
  simp [List.all_eq_true, List.any_eq_true]

/-- C1 counterexample: no single fixed negative-phrase list governs both
branches. A status-200 response whose body is "404" (a phrase the claim
places in the shared list) is classified likely-linked by the email
generic branch but not-found by the username probe. -/
theorem neg_list_divergence_at_404 :
    email_generic_verdict 200 (some "404") = "✅ مستلم/محتمل مرتبط" ∧
      (probeOutcome "https://example.com/u" (some ⟨200, some "404"⟩)).2 = false ∧
      EMAIL_NEG ≠ NEGATIVE_HINTS := by
  decide

/-- C1 (amended): each generic branch uses its own fixed list (EMAIL_NEG
for the email fallback, NEGATIVE_HINTS for the username probe). With its
own list, a branch classifies EXISTS/likely iff status < 400 and no phrase
of that list occurs in the first 2000 lower-cased characters of the body;
otherwise ABSENT/unconfirmed.  A status-200 body containing "user not
found" is ABSENT under both branches. -/
theorem generic_fallback_per_branch :
    (∀ (status : Nat) (body : Option String),
        email_generic_verdict status body = "✅ مستلم/محتمل مرتبط" ↔
          (status < 400 ∧
            EMAIL_NEG.all (fun h => !strContains (capLower2000 (body.getD "")) h) = true)) ∧
      (∀ (url : String) (status : Nat) (body : Option String),
        (probeOutcome url (some ⟨status, body⟩)).2 = true ↔
          (status < 400 ∧
            NEGATIVE_HINTS.all
              (fun h => !strContains (capLower2000 (body.getD "")) h) = true)) ∧
      email_generic_verdict 200 (some "User not found here") = "❌ غير مؤكد/مرفوض" ∧
      (probeOutcome "https://example.com/u" (some ⟨200, some "User not found here"⟩)).2
          = false ∧
      email_generic_verdict 200 (some "<html>welcome back</html>") = "✅ مستلم/محتمل مرتبط" ∧
      (probeOutcome "https://example.com/u"
          (some ⟨200, some "<html>welcome back</html>"⟩)).2 = true := by
  refine ⟨?_, ?_, by decide, by decide, by decide, by decide⟩
  · intro status body
    unfold email_generic_verdict
    dsimp only
    constructor
    · intro hv
      by_cases hs : (decide (status < 400) &&
          !(EMAIL_NEG.any (fun h => strContains (capLower2000 (body.getD "")) h))) = true
      · exact (generic_cond_iff status EMAIL_NEG _).mp hs
      · rw [if_neg hs] at hv
        exact absurd hv (by decide)
    · intro hok
      rw [if_pos ((generic_cond_iff status EMAIL_NEG _).mpr hok)]
  · intro url status body
    unfold probeOutcome
    dsimp only
    exact generic_cond_iff status NEGATIVE_HINTS _

theorem foldl_set_getq {α : Type} (f : Nat → α) :
    ∀ (order : List Nat) (init : List (Option α)) (j : Nat),
      (order.foldl (fun s i => s.set i (some (f i))) init)[j]? =
        if j ∈ order ∧ j < init.length then some (some (f j)) else init[j]? := by
  intro order
  induction order with
  | nil =>
    intro init j
    simp
  | cons i os ih =>
    intro init j
    rw [List.foldl_cons, ih]
    by_cases hjos : j ∈ os
    · by_cases hlt : j < init.length
      · rw [if_pos ⟨hjos, by simpa using hlt⟩,
          if_pos ⟨List.mem_cons_of_mem _ hjos, hlt⟩]
      · rw [if_neg (by simp [hlt]), if_neg (by simp [hlt])]
        rw [List.getElem?_eq_none (by simpa using Nat.le_of_not_lt hlt),
          List.getElem?_eq_none (Nat.le_of_not_lt hlt)]
    · rw [if_neg (by simp [hjos])]
      by_cases hij : i = j
      · subst hij
        rw [List.getElem?_set]
        by_cases hlt : i < init.length
        · rw [if_pos rfl, if_pos hlt, if_pos ⟨List.mem_cons_self i os, hlt⟩]
        · rw [if_pos rfl, if_neg hlt, if_neg (fun hc => hlt hc.2),
            List.getElem?_eq_none (Nat.le_of_not_lt hlt)]
      · rw [List.getElem?_set_ne hij,
          if_neg (fun hc => (List.mem_cons.mp hc.1).elim (fun h => hij h.symm) hjos)]

theorem runGather_eq_map {α : Type} (f : Nat → α) (n : Nat) (order : List Nat)
    (hperm : order.Perm (List.range n)) :
    order.foldl (fun s i => s.set i (some (f i))) (List.replicate n (none : Option α)) =
      (List.range n).map (fun i => some (f i)) := by
  apply List.ext_getElem?
  intro j
  rw [foldl_set_getq]
  by_cases hj : j < n
  · rw [if_pos ⟨hperm.mem_iff.mpr (List.mem_range.mpr hj), by simpa using hj⟩]
    rw [List.getElem?_map, List.getElem?_range hj]
    rfl
  · rw [if_neg (by simp [hj])]
    rw [List.getElem?_eq_none (by simpa using Nat.le_of_not_lt hj),
      List.getElem?_eq_none (by simpa using Nat.le_of_not_lt hj)]

theorem range_map_getD {α β : Type} (l : List α) (g : α → β) (d : α) :
    (List.range l.length).map (fun i => g (l.getD i d)) = l.map g := by
  induction l with
  | nil => simp
  | cons a t ih =>
    rw [List.length_cons, List.range_succ_eq_map]
    rw [List.map_cons, List.map_map]
    have h1 : ((fun i => g ((a :: t).getD i d)) ∘ Nat.succ) =
        (fun i => g (t.getD i d)) := rfl
    rw [h1, ih]
    rfl

/-- C2: the fan-out result is the positional map of per-site outcomes,
independent of response arrival order; each site yields exactly one
outcome, a site whose probe raises is counted as `(url, False)`, and the
found / not-found counts are determined only by the per-site responses. -/
theorem username_fanout_deterministic (urls : List String)
    (net : String → Option HttpResp) (order : List Nat)
    (hperm : order.Perm (List.range urls.length)) :
    username_fanout urls net order = urls.map (fun u => probeOutcome u (net u)) ∧
      (username_fanout urls net order).length = urls.length ∧
      (∀ u, net u = none → probeOutcome u (net u) = (u, false)) ∧
      (foundOf (username_fanout urls net order)).length =
        (urls.filter (fun u => (probeOutcome u (net u)).2)).length ∧
      (missingOf (username_fanout urls net order)).length =
        (urls.filter (fun u => !(probeOutcome u (net u)).2)).length := by
  have h1 : username_fanout urls net order = urls.map (fun u => probeOutcome u (net u)) := by
    unfold username_fanout
    rw [runGather_eq_map (taskResult urls net) urls.length order hperm]
    rw [List.map_map]
    have h2 : ((fun o => Option.getD o ("", false)) ∘ fun i => some (taskResult urls net i)) =
        (fun i => taskResult urls net i) := rfl
    rw [h2]
    exact range_map_getD urls (fun u => probeOutcome u (net u)) ""
  refine ⟨h1, ?_, ?_, ?_, ?_⟩
  · rw [h1, List.length_map]
  · intro u h
    simp [probeOutcome, h]
  · rw [h1]
    unfold foundOf
    rw [List.length_map, List.filter_map, List.length_map]
    rfl
  · rw [h1]
    unfold missingOf
    rw [List.length_map, List.filter_map, List.length_map]
    rfl

/-- C2 witness: five templates — three clean-200 sites, one 404 site, one
raising site — under the arrival order [4, 2, 0, 1, 3] partition into
exactly 3 found and 2 not-found. -/
theorem username_fanout_deterministic_witness :
    (foundOf (username_fanout
        ["https://a.example/u", "https://b.example/u", "https://c.example/u",
         "https://d.example/u", "https://e.example/u"] demoNet [4, 2, 0, 1, 3])).length = 3 ∧
      (missingOf (username_fanout
        ["https://a.example/u", "https://b.example/u", "https://c.example/u",
         "https://d.example/u", "https://e.example/u"] demoNet [4, 2, 0, 1, 3])).length = 2 := by
  have h := username_fanout_deterministic
    ["https://a.example/u", "https://b.example/u", "https://c.example/u",
     "https://d.example/u", "https://e.example/u"] demoNet [4, 2, 0, 1, 3] (by decide)
  exact ⟨by rw [h.2.2.2.1]; decide, by rw [h.2.2.2.2]; decide⟩

theorem foldl_keep_eq_findSome {α : Type} (g : α → Option String) :
    ∀ (keys : List α) (acc : Option String),
      keys.foldl (fun acc k => match acc with | some v => some v | none => g k) acc =
        (match acc with | some v => some v | none => keys.findSome? g) := by
  intro keys
  induction keys with
  | nil =>
    intro acc
    cases acc <;> simp
  | cons k ks ih =>
    intro acc
    rw [List.foldl_cons]
    cases acc with
    | some v =>
      rw [ih]
    | none =>
      rw [ih]
      dsimp only
      rw [List.findSome?_cons]
      cases hgk : g k <;> simp [hgk]

/-- C9 counterexample: the nested (one-level-deep) search does not use the
same key set as the top-level search — "caller" is found at the top level
but missed one level down, so `{"data": {"caller": "Ali"}}` yields no name
at all (the text strategies do not fire on its serialization either). -/
theorem extract_name_nested_caller_missed :
    extract_name_json (JVal.obj [("caller", JVal.str "Ali")]) = some "Ali" ∧
      extract_name_json (JVal.obj [("data", JVal.obj [("caller", JVal.str "Ali")])]) = none ∧
      extract_name_pipeline
          (some (JVal.obj [("data", JVal.obj [("caller", JVal.str "Ali")])]))
          "\x7b\"data\": \x7b\"caller\": \"Ali\"\x7d\x7d" = none ∧
      extract_name_json (JVal.obj [("data", JVal.obj [("caller_name", JVal.str "Ali")])]) =
        some "Ali" := by
  decide

/-- C9 (amended): on a JSON object the extraction returns the first
non-empty-stripped string among the top-level keys name, Name, callerName,
caller_name, caller, and only if none matches searches one level into
nested object values for the keys name, Name, callerName, caller_name
("caller" is not consulted one level down). The claimed concrete
behaviours hold: `{"status":"ok","data":{"caller_name":"Ali"}}` yields
"Ali", text containing `الاسم: محمد احمد` yields `محمد احمد` via the
labelled-field strategy, and input matching no strategy yields no value. -/
theorem extract_name_amended :
    (∀ m : List (String × JVal),
        extract_name_json (JVal.obj m) =
          (match TOP_KEYS.findSome? (stripLookup m) with
           | some v => some v
           | none =>
             (jvalsOf m).findSome? (fun vv =>
               match vv with
               | JVal.obj m2 => NESTED_KEYS.findSome? (stripLookup m2)
               | _ => none))) ∧
      extract_name_pipeline
          (some (JVal.obj [("status", JVal.str "ok"),
            ("data", JVal.obj [("caller_name", JVal.str "Ali")])]))
          "\x7b\"status\": \"ok\", \"data\": \x7b\"caller_name\": \"Ali\"\x7d\x7d" =
        some "Ali" ∧
      extract_name_from_text "الاسم: محمد احمد" = some "محمد احمد" ∧
      extract_name_pipeline none "hello world" = none ∧
      extract_name_json (JVal.obj [("info", JVal.obj [("caller", JVal.str "Bob")])]) = none := by
  refine ⟨?_, by decide, by decide, by decide, by decide⟩
  intro m
  have htop : topScan m = TOP_KEYS.findSome? (stripLookup m) :=
    foldl_keep_eq_findSome (stripLookup m) TOP_KEYS none
  have hinner : ∀ m2, nestedScanInner m2 = NESTED_KEYS.findSome? (stripLookup m2) :=
    fun m2 => foldl_keep_eq_findSome (stripLookup m2) NESTED_KEYS none
  have hnested : nestedScan m =
      (jvalsOf m).findSome? (fun vv =>
        match vv with
        | JVal.obj m2 => NESTED_KEYS.findSome? (stripLookup m2)
        | _ => none) := by
    unfold nestedScan
    rw [foldl_keep_eq_findSome
      (fun vv => match vv with | JVal.obj m2 => nestedScanInner m2 | _ => none)
      (jvalsOf m) none]
    dsimp only
    congr 1
    funext vv
    cases vv <;> simp [hinner]
  unfold extract_name_json
  dsimp only
  rw [htop, hnested]

theorem phone_loop_len (cs : Codecs) (net : String → Option PhoneHttpResp) :
    ∀ l : List String, (phone_loop cs net l).2.length ≤ 1 := by
  intro l
  induction l with
  | nil => simp [phone_loop]
  | cons v rest ih =>
    rw [phone_loop]
    cases net v with
    | none => exact ih
    | some resp =>
      dsimp only
      cases variantName cs resp with
      | none => exact ih
      | some name => simp

theorem phone_loop_hit (cs : Codecs) (net : String → Option PhoneHttpResp) :
    ∀ l : List String,
      (match firstHit (tryVariant cs net) l with
       | some p => phone_loop cs net l = (l.take (p.1 + 1), [postProcessName p.2])
       | none => phone_loop cs net l = (l, [])) := by
  intro l
  induction l with
  | nil => simp [firstHit, phone_loop]
  | cons v rest ih =>
    rw [phone_loop, firstHit]
    cases hnet : net v with
    | none =>
      rw [show tryVariant cs net v = none by rw [tryVariant, hnet]]
      dsimp only
      cases hfh : firstHit (tryVariant cs net) rest with
      | none =>
        rw [hfh] at ih
        rw [ih]
        simp only [Option.map_none']
      | some p =>
        rw [hfh] at ih
        rw [ih]
        simp only [Option.map_some']
        rw [List.take_succ_cons]
    | some resp =>
      dsimp only
      rw [show tryVariant cs net v = variantName cs resp by rw [tryVariant, hnet]]
      cases hv : variantName cs resp with
      | some name =>
        dsimp only
        rw [List.take_succ_cons, List.take_zero]
      | none =>
        dsimp only
        cases hfh : firstHit (tryVariant cs net) rest with
        | none =>
          rw [hfh] at ih
          rw [ih]
          simp only [Option.map_none']
        | some p =>
          rw [hfh] at ih
          rw [ih]
          simp only [Option.map_some']
          rw [List.take_succ_cons]

/-- C3: `phone_check` always returns a list of length at most one, and an
input producing zero variants yields the empty result with no request
issued (and, being a total function, without raising). -/
theorem phone_check_at_most_one (cs : Codecs) (raw : String)
    (net : String → Option PhoneHttpResp) :
    (phone_check cs raw net).length ≤ 1 ∧
      (build_sa_variants raw = [] → phone_check_run cs raw net = ([], [])) := by
  constructor
  · exact phone_loop_len cs net (build_sa_variants raw)
  · intro h
    rw [phone_check_run, h, phone_loop]

/-- C3 witness: a non-digit input yields zero variants and the empty
result. -/
theorem phone_check_at_most_one_witness :
    (phone_check demoCodecs "no digits here!" demoPhoneNet).length ≤ 1 ∧
      phone_check_run demoCodecs "no digits here!" demoPhoneNet = ([], []) :=
  ⟨(phone_check_at_most_one demoCodecs "no digits here!" demoPhoneNet).1,
    (phone_check_at_most_one demoCodecs "no digits here!" demoPhoneNet).2 (by decide)⟩

/-- C4: variants are tried in `build_sa_variants` order; a raised request
is skipped and the next variant tried; the first variant yielding a name
stops the loop — exactly the variants up to and including it are
requested and the (post-processed) name is returned; if no variant yields
a name every variant is requested and the result is empty. -/
theorem phone_check_first_hit (cs : Codecs) (raw : String)
    (net : String → Option PhoneHttpResp) :
    (∀ v rest, net v = none →
        phone_loop cs net (v :: rest) =
          (v :: (phone_loop cs net rest).1, (phone_loop cs net rest).2)) ∧
      (match firstHit (tryVariant cs net) (build_sa_variants raw) with
       | some p => phone_check_run cs raw net =
           ((build_sa_variants raw).take (p.1 + 1), [postProcessName p.2])
       | none => phone_check_run cs raw net = (build_sa_variants raw, [])) := by
  constructor
  · intro v rest hnet
    rw [phone_loop, hnet]
  · exact phone_loop_hit cs net (build_sa_variants raw)

/-- C4 witness: for raw input "0501234567" with the first variant's
request raising and the second yielding "Ali", exactly the first two
variants are requested and the result is ["Ali"]. -/
theorem phone_check_first_hit_witness :
    phone_loop demoCodecs demoPhoneNet ("501234567" :: ["0501234567", "966501234567"]) =
        ("501234567" ::
            (phone_loop demoCodecs demoPhoneNet ["0501234567", "966501234567"]).1,
          (phone_loop demoCodecs demoPhoneNet ["0501234567", "966501234567"]).2) ∧
      phone_check_run demoCodecs "0501234567" demoPhoneNet =
        (["501234567", "0501234567"], ["Ali"]) := by
  constructor
  · exact (phone_check_first_hit demoCodecs "0501234567" demoPhoneNet).1
      "501234567" ["0501234567", "966501234567"] rfl
  · have h := (phone_check_first_hit demoCodecs "0501234567" demoPhoneNet).2
    have hfh : firstHit (tryVariant demoCodecs demoPhoneNet)
        (build_sa_variants "0501234567") = some (1, "Ali") := by decide
    rw [hfh] at h
    exact h

end Rail
